import Mathlib

/-!
Verification of the route-planner core (route enumeration, deduplication,
waypoint filtering, polyline extraction, statistics, progress reporting).

The embedding mirrors the Python source:
- a graph is a list of node identifiers, a coordinate map (latitude, longitude)
  and a multimap of edge-attribute records keyed by an ordered node pair
  (the empty record list models an absent edge, since both a missing key and
  an empty dict are skipped identically by the source);
- numeric values carried by the program (lengths, elapsed seconds, coordinates)
  are modelled as exact rationals; the turn-angle computation, which calls
  trigonometric functions, is modelled over the reals with atan2 rendered as
  the complex argument;
- the external geodesic oracle (geopy) and the external nearest-node index
  (osmnx) are parameters of the functions that call them;
- Python exceptions are modelled with Except / Option results.
-/

namespace RoutePlanner

/-! ## Program embedding -/

/-- One edge-attribute record of the multigraph: optional length in meters,
optional road-type tag (a scalar string or a non-empty list of strings, as
produced by osmnx), optional geometry as a sequence of (lon, lat) points. -/
structure EdgeRec where
  length : Option ℚ
  highway : Option (String ⊕ (String × List String))
  geometry : Option (List (ℚ × ℚ))
deriving DecidableEq


/-- The road-network graph consumed by the core: node identifiers, per-node
coordinates as the pair (y, x) = (latitude, longitude), and for every ordered
node pair the ordered list of parallel edge records ([] when there is no
edge, matching the falsy check on get_edge_data in the source). -/
structure Graph where
  nodeIds : List ℕ
  coord : ℕ → ℚ × ℚ
  edges : ℕ → ℕ → List EdgeRec


/-- Consecutive node pairs of a route, as iterated by
for i in range(len(route) - 1). -/
def routePairs (route : List ℕ) : List (ℕ × ℕ) :=
  route.zip route.tail


/-- Length of one segment: the length attribute of the first parallel edge
record when present, otherwise the external geodesic distance between the two
node coordinates (geo is the geopy oracle). Mirrors the segment_length
logic of compute_route_distance. -/
def segLen (geo : ℚ × ℚ → ℚ × ℚ → ℚ) (g : Graph) (u v : ℕ) : ℚ :=
  match (g.edges u v).head? with
  | some d =>
    match d.length with
    | some l => l
    | none => geo (g.coord u) (g.coord v)
  | none => geo (g.coord u) (g.coord v)


/-- stats.compute_route_distance: accumulates the running total and the
per-segment list over consecutive node pairs. -/
def compute_route_distance (geo : ℚ × ℚ → ℚ × ℚ → ℚ) (g : Graph) (route : List ℕ) :
    ℚ × List ℚ :=
  (routePairs route).foldl
    (fun acc uv => (acc.1 + segLen geo g uv.1 uv.2, acc.2 ++ [segLen geo g uv.1 uv.2]))
    (0, [])


/-- Road-type tag read for one node pair: none when the pair has no edge
record at all (the pair is skipped); otherwise the highway attribute of the
first parallel record, defaulting to the string undefined when absent and
taking the first element when the value is a list. -/
def edgeTag (g : Graph) (u v : ℕ) : Option String :=
  (g.edges u v).head?.map fun d =>
    match d.highway with
    | none => "undefined"
    | some (Sum.inl s) => s
    | some (Sum.inr hd) => hd.1


/-- One dict update highway_counts[h] = highway_counts.get(h, 0) + 1,
on an insertion-ordered association list. -/
def bumpCount : List (String × ℕ) → String → List (String × ℕ)
  | [], tag => [(tag, 1)]
  | (k, n) :: rest, tag =>
    if k = tag then (k, n + 1) :: rest else (k, n) :: bumpCount rest tag


/-- stats.log_road_types: the histogram produced by iterating consecutive
node pairs, skipping pairs without edge records and bumping the counter of
the normalized tag otherwise. -/
def log_road_types (g : Graph) (route : List ℕ) : List (String × ℕ) :=
  (routePairs route).foldl
    (fun acc uv =>
      match edgeTag g uv.1 uv.2 with
      | none => acc
      | some tag => bumpCount acc tag)
    []


/-- Dict lookup with default 0, as highway_counts.get(tag, 0). -/
def countOf : List (String × ℕ) → String → ℕ
  | [], _ => 0
  | (k, n) :: rest, tag => if k = tag then n else countOf rest tag


/-- The snapshot emitted to the progress sink. -/
structure ProgressData where
  timeRunning : ℕ
  timeDuration : ℕ
  timeEstimate : ℚ
deriving DecidableEq


/-- RoutePlanner.update_progress: average elapsed time per completed route
(zero when none completed yet) times the remaining count. -/
def update_progress (completed total : ℕ) (elapsed : ℚ) : ProgressData :=
  let avg : ℚ := if 0 < completed then elapsed / completed else 0
  let remaining : ℚ := (total : ℚ) - (completed : ℚ)
  ⟨completed, total, avg * remaining⟩


/-- RoutePlanner.filter_routes_by_point, with the external nearest-node
index as the parameter nearest: resolve every middle point to a node and
keep the routes containing all resolved nodes. -/
def filter_routes_by_point (nearest : ℚ × ℚ → ℕ) (routes : List (List ℕ))
    (middlePoints : List (ℚ × ℚ)) : List (List ℕ) :=
  let targets := middlePoints.map nearest
  routes.filter fun route => targets.all fun tn => tn ∈ route


/-- Coordinate points contributed by one consecutive node pair: when the
first parallel edge record exists and has a geometry, all its (lon, lat)
points converted to (lat, lon); otherwise the two node coordinates (u then
v). Mirrors the body of the per-pair loop in get_route_polylines. -/
def segPoints (g : Graph) (u v : ℕ) : List (ℚ × ℚ) :=
  match (g.edges u v).head? with
  | some d =>
    match d.geometry with
    | some pts => pts.map fun p => (p.2, p.1)
    | none => [g.coord u, g.coord v]
  | none => [g.coord u, g.coord v]


/-- The raw path_coords list of one route: concatenation of the per-pair
segments in path order. -/
def routeCoords (g : Graph) (route : List ℕ) : List (ℚ × ℚ) :=
  (routePairs route).flatMap fun uv => segPoints g uv.1 uv.2


/-- The cleaning loop body: walk the remaining points keeping track of the
last kept point, dropping each point equal to it. -/
def collapseFrom (last : ℚ × ℚ) : List (ℚ × ℚ) → List (ℚ × ℚ)
  | [] => []
  | c :: rest => if c = last then collapseFrom last rest else c :: collapseFrom c rest


/-- cleaned_coords = [path_coords[0]] followed by the cleaning loop; none
models the IndexError raised on an empty path_coords list. -/
def cleanedCoords (l : List (ℚ × ℚ)) : Option (List (ℚ × ℚ)) :=
  match l with
  | [] => none
  | c :: rest => some (c :: collapseFrom c rest)


/-- The two failure modes of get_route_polylines: the explicit ValueError
when the graph is missing, and the crash on a degenerate (empty) route. -/
inductive PolyError where
  | graphNotLoaded
  | degenerateRoute
deriving DecidableEq


/-- One entry of the returned list: the 1-based route ordinal and its
polyline. -/
structure RouteLine where
  route_id : ℕ
  polyline : List (ℚ × ℚ)
deriving DecidableEq


/-- The enumerate loop of get_route_polylines, carried out from a given
0-based index; any per-route failure aborts the whole call. -/
def polylinesFrom (g : Graph) : ℕ → List (List ℕ) → Except PolyError (List RouteLine)
  | _, [] => Except.ok []
  | idx, r :: rs =>
    match cleanedCoords (routeCoords g r) with
    | none => Except.error PolyError.degenerateRoute
    | some cs =>
      match polylinesFrom g (idx + 1) rs with
      | Except.error e => Except.error e
      | Except.ok rest => Except.ok (⟨idx + 1, cs⟩ :: rest)


/-- RoutePlanner.get_route_polylines: the missing-graph check comes first,
then each route is converted in order. -/
def get_route_polylines (g : Option Graph) (routes : List (List ℕ)) :
    Except PolyError (List RouteLine) :=
  match g with
  | none => Except.error PolyError.graphNotLoaded
  | some g => polylinesFrom g 0 routes


/-- A concrete graph used to instantiate the polyline error theorem. -/
def gPolyErr : Graph :=
  ⟨[0, 1], fun n => if n = 0 then (0, 0) else (1, 1), fun _ _ => []⟩


/-- A concrete graph used to instantiate the polyline shape theorem: one
edge 0 to 1 with a geometry that repeats a point, one edge 1 to 2 without
geometry. -/
def gPolyShape : Graph :=
  ⟨[0, 1, 2],
   fun n => if n = 0 then (0, 0) else if n = 1 then (0, 1) else (1, 1),
   fun u v =>
     if u = 0 ∧ v = 1 then [⟨none, none, some [(0, 0), (1, 0), (1, 0)]⟩]
     else if u = 1 ∧ v = 2 then [⟨none, none, none⟩]
     else []⟩


/-- Successors of a node: every node that the graph connects to by at least
one directed edge record (parallel edges collapse to one logical adjacency,
as in the networkx adjacency the source iterates). -/
def graphAdj (g : Graph) (u : ℕ) : List ℕ :=
  g.nodeIds.filter fun v => !(g.edges u v).isEmpty


/-- Depth-first simple-path search from u to t avoiding the nodes already on
the current path, the semantics of the nx.all_simple_paths call in the
source; the fuel bounds the recursion depth by the node count. -/
def simplePathsAux (adj : ℕ → List ℕ) (t : ℕ) : ℕ → ℕ → List ℕ → List (List ℕ)
  | 0, u, _ => if u = t then [[u]] else []
  | fuel + 1, u, vis =>
    if u = t then [[u]]
    else
      ((adj u).filter fun w => !(w ∈ u :: vis : Bool)).flatMap fun w =>
        (simplePathsAux adj t fuel w (u :: vis)).map fun p => u :: p


/-- All simple paths of the graph from s to t, in depth-first discovery
order. -/
def all_simple_paths (g : Graph) (s t : ℕ) : List (List ℕ) :=
  simplePathsAux (graphAdj g) t g.nodeIds.length s []


/-- The deduplication loop shared by both computation modes: walk the
discovered routes keeping a seen set of keys, keep a route iff its key was
not seen, and record the key of every kept route. -/
def dedupLoop {κ : Type} (key : List ℕ → κ) [DecidableEq κ] :
    List (List ℕ) → List κ → List (List ℕ)
  | [], _ => []
  | r :: rs, seen =>
    if key r ∈ seen then dedupLoop key rs seen
    else r :: dedupLoop key rs (key r :: seen)


/-- The raw Mode A stream: for every target node other than the start, all
simple paths from the start to it, concatenated in target order. -/
def rawRoutesFromStart (g : Graph) (start : ℕ) : List (List ℕ) :=
  (g.nodeIds.filter fun t => !(t = start : Bool)).flatMap fun t =>
    all_simple_paths g start t


/-- RoutePlanner.compute_routes_start_radius: Mode A enumeration with the
sequence-identity deduplication (routes hashed as tuples). -/
def compute_routes_start_radius (g : Graph) (start : ℕ) : List (List ℕ) :=
  dedupLoop (fun r => r) (rawRoutesFromStart g start) []


/-- RoutePlanner.compute_routes_start_end_radius: Mode B enumeration with
the node-set deduplication (routes hashed as frozensets). -/
def compute_routes_start_end_radius (g : Graph) (s t : ℕ) : List (List ℕ) :=
  dedupLoop (fun r => r.toFinset) (all_simple_paths g s t) []


/-- The deduplication policy stated by the spec: keep the first route of
each key class, drop every later route whose key a kept route already
carries. -/
def keepFirstBy {α κ : Type} (key : α → κ) [DecidableEq κ] : List α → List α
  | [] => []
  | r :: rs => r :: keepFirstBy key (rs.filter fun x => !(key x = key r : Bool))
termination_by l => l.length
decreasing_by
  simp only [List.length_cons]
  exact Nat.lt_succ_of_le (List.length_filter_le _ _)


/-- A concrete two-node graph with the single edge 1 to 2, used to
instantiate the enumerator soundness theorem. -/
def gEnum : Graph :=
  ⟨[1, 2], fun n => if n = 1 then (0, 0) else (0, 1),
   fun u v => if u = 1 ∧ v = 2 then [⟨some 5, none, none⟩] else []⟩


/-- A graph with two parallel records on the edge 0 to 1. -/
def gPar1 : Graph :=
  ⟨[0, 1], fun n => if n = 0 then (0, 0) else (0, 1),
   fun u v =>
     if u = 0 ∧ v = 1 then
       [⟨some 7, none, none⟩, ⟨some 9, some (Sum.inl "residential"), some [(5, 5)]⟩]
     else []⟩


/-- The same graph with the second parallel record removed. -/
def gPar2 : Graph :=
  ⟨[0, 1], fun n => if n = 0 then (0, 0) else (0, 1),
   fun u v => if u = 0 ∧ v = 1 then [⟨some 7, none, none⟩] else []⟩


/-- Real atan2: the argument of the complex number with real part x and
imaginary part y. -/
noncomputable def atan2 (y x : ℝ) : ℝ :=
  Complex.arg ⟨x, y⟩


/-- Python float modulo for a positive modulus: a - b * floor (a / b). -/
noncomputable def pymod (a b : ℝ) : ℝ :=
  a - b * ⌊a / b⌋


/-- The angle_between helper of log_turn_stats: the two vectors point from
the middle node q to p and to r, the atan2 difference is converted to
degrees, shifted into [0, 360) and folded to [0, 180]. -/
noncomputable def angle_between (p q r : ℝ × ℝ) : ℝ :=
  let v1 : ℝ × ℝ := (p.1 - q.1, p.2 - q.2)
  let v2 : ℝ × ℝ := (r.1 - q.1, r.2 - q.2)
  let a1 := atan2 v1.2 v1.1
  let a2 := atan2 v2.2 v2.1
  let ang := (a2 - a1) * (180 / Real.pi)
  let ang2 := pymod (ang + 360) 360
  if ang2 > 180 then 360 - ang2 else ang2


/-- Rational node coordinates cast to the reals for the angle computation. -/
noncomputable def toR (c : ℚ × ℚ) : ℝ × ℝ :=
  ((c.1 : ℝ), (c.2 : ℝ))


/-- The (previous, current, next) node triples visited by the interior-node
loop for i in range(1, len(route) - 1). -/
def tripleList (route : List ℕ) : List (ℕ × ℕ × ℕ) :=
  route.zip (route.tail.zip route.tail.tail)


/-- stats.log_turn_stats: the number of interior nodes whose computed angle
exceeds 30 degrees. -/
noncomputable def log_turn_stats (g : Graph) (route : List ℕ) : ℕ :=
  ((tripleList route).map fun tr =>
    if angle_between (toR (g.coord tr.1)) (toR (g.coord tr.2.1)) (toR (g.coord tr.2.2)) > 30
    then 1 else 0).sum


/-- Three exactly colinear nodes on one parallel of latitude, the middle
node exactly between the outer two. -/
def gColin : Graph :=
  ⟨[0, 1, 2], fun n => if n = 0 then (0, 0) else if n = 1 then (0, 1) else (0, 2),
   fun _ _ => []⟩


/-- Three nodes forming an exact 90-degree bend at the middle node. -/
def gBend : Graph :=
  ⟨[0, 1, 2], fun n => if n = 0 then (0, 0) else if n = 1 then (0, 1) else (1, 1),
   fun _ _ => []⟩


/-! ## Lemmas and claim theorems -/

lemma collapseFrom_destutter (l : List (ℚ × ℚ)) :
    ∀ c, c :: collapseFrom c l = List.destutter' (· ≠ ·) c l := by
  induction l with
  | nil => intro c; simp [collapseFrom, List.destutter'_nil]
  | cons b l ih =>
    intro c
    by_cases h : b = c
    · rw [List.destutter'_cons_neg _ (by simp [h]), collapseFrom, if_pos h]
      exact ih c
    · rw [List.destutter'_cons_pos _ (fun hh => h hh.symm), collapseFrom, if_neg h]
      rw [← ih b]


lemma polylinesFrom_degenerate (g : Graph) (routes : List (List ℕ)) :
    ∀ idx : ℕ, [] ∈ routes →
      polylinesFrom g idx routes = Except.error PolyError.degenerateRoute := by
  induction routes with
  | nil => intro idx h; simp at h
  | cons r rs ih =>
    intro idx h
    rcases List.mem_cons.mp h with h | h
    · rw [polylinesFrom, ← h]
      simp [routeCoords, routePairs, cleanedCoords]
    · rw [polylinesFrom]
      rcases hc : cleanedCoords (routeCoords g r) with _ | cs
      · rfl
      · rw [ih (idx + 1) h]


lemma polylinesFrom_ok (g : Graph) (routes : List (List ℕ)) :
    ∀ idx : ℕ, (∀ r ∈ routes, routeCoords g r ≠ []) →
      polylinesFrom g idx routes
        = Except.ok ((List.enumFrom idx routes).map fun p =>
            ⟨p.1 + 1, List.destutter (· ≠ ·) (routeCoords g p.2)⟩) := by
  induction routes with
  | nil => intro idx _; simp [polylinesFrom, List.enumFrom]
  | cons r rs ih =>
    intro idx h
    rcases hc : routeCoords g r with _ | ⟨c, rest⟩
    · exact absurd hc (h r (List.mem_cons_self r rs))
    · rw [polylinesFrom, hc]
      rw [ih (idx + 1) fun x hx => h x (List.mem_cons_of_mem r hx)]
      simp only [cleanedCoords, List.enumFrom, List.map_cons, hc]
      rw [List.destutter_cons', collapseFrom_destutter]


/-- C4: polyline extraction fails with the graph-not-loaded error whenever
the graph is missing, before looking at any route, and fails with the
degenerate-route error whenever some route has an empty path. -/
theorem polyline_extraction_errors :
    (∀ routes : List (List ℕ),
        get_route_polylines none routes = Except.error PolyError.graphNotLoaded) ∧
    (∀ (g : Graph) (routes : List (List ℕ)), [] ∈ routes →
        get_route_polylines (some g) routes = Except.error PolyError.degenerateRoute) :=
  ⟨fun _ => rfl, fun g routes h => polylinesFrom_degenerate g routes 0 h⟩


/-- Witness for C4: the missing-graph error on a nonempty route list, and
the degenerate-route error on a list holding one empty route. -/
theorem polyline_extraction_errors_witness :
    get_route_polylines none [[0]] = Except.error PolyError.graphNotLoaded ∧
    ([] ∈ ([[]] : List (List ℕ)) ∧
      get_route_polylines (some gPolyErr) [[]] = Except.error PolyError.degenerateRoute) :=
  ⟨polyline_extraction_errors.1 [[0]],
   by decide,
   polyline_extraction_errors.2 gPolyErr [[]] (by decide)⟩


/-- C7: on a loaded graph, when every route contributes at least one point,
the extraction returns, in route order, the 1-based-tagged polylines obtained
by concatenating per-pair segments (full geometry converted from (lon, lat)
to (lat, lon) when the first edge record has one, the two node coordinates
otherwise) and collapsing consecutive duplicate points. -/
theorem polyline_extraction_shape (g : Graph) (routes : List (List ℕ))
    (h : ∀ r ∈ routes, routeCoords g r ≠ []) :
    get_route_polylines (some g) routes
      = Except.ok (routes.enum.map fun p =>
          ⟨p.1 + 1,
            List.destutter (· ≠ ·)
              ((routePairs p.2).flatMap fun uv => segPoints g uv.1 uv.2)⟩) :=
  polylinesFrom_ok g routes 0 h


/-- Witness for C7 on the route [0, 1, 2]: the geometry of the first edge is
flipped to (lat, lon) and its repeated point is collapsed, the second edge
falls back to the node coordinates, and the result is tagged 1. -/
theorem polyline_extraction_shape_witness :
    (∀ r ∈ [[0, 1, 2]], routeCoords gPolyShape r ≠ []) ∧
    get_route_polylines (some gPolyShape) [[0, 1, 2]]
      = Except.ok ([[0, 1, 2]].enum.map fun p =>
          ⟨p.1 + 1,
            List.destutter (· ≠ ·)
              ((routePairs p.2).flatMap fun uv => segPoints gPolyShape uv.1 uv.2)⟩) :=
  ⟨by decide, polyline_extraction_shape gPolyShape [[0, 1, 2]] (by decide)⟩


lemma dedupLoop_eq_keepFirstBy {κ : Type} (key : List ℕ → κ) [DecidableEq κ]
    (l : List (List ℕ)) :
    ∀ seen : List κ,
      dedupLoop key l seen = keepFirstBy key (l.filter fun x => !(key x ∈ seen : Bool)) := by
  induction l with
  | nil => intro seen; simp [dedupLoop, keepFirstBy]
  | cons r rs ih =>
    intro seen
    by_cases h : key r ∈ seen
    · rw [dedupLoop, if_pos h]
      simp only [List.filter_cons, decide_eq_true h, Bool.not_true, cond_false]
      exact ih seen
    · rw [dedupLoop, if_neg h]
      have hf : (r :: rs).filter (fun x => !(key x ∈ seen : Bool))
          = r :: rs.filter (fun x => !(key x ∈ seen : Bool)) := by
        simp [h]
      rw [hf, keepFirstBy, ih (key r :: seen), List.filter_filter]
      congr 1
      congr 1
      apply List.filter_congr
      intro a _
      by_cases h1 : key a = key r <;> by_cases h2 : key a ∈ seen <;>
        simp [List.mem_cons, h1, h2]


lemma keepFirstBy_sublist_of_len {α κ : Type} (key : α → κ) [DecidableEq κ] :
    ∀ (n : ℕ) (l : List α), l.length ≤ n → (keepFirstBy key l).Sublist l := by
  intro n
  induction n with
  | zero =>
    intro l hl
    rcases l with _ | ⟨r, rs⟩
    · simp [keepFirstBy]
    · simp at hl
  | succ n ih =>
    intro l hl
    rcases l with _ | ⟨r, rs⟩
    · simp [keepFirstBy]
    · rw [keepFirstBy]
      have h1 : (rs.filter fun x => !(key x = key r : Bool)).length ≤ n :=
        le_trans (List.length_filter_le _ _) (Nat.succ_le_succ_iff.mp hl)
      exact List.Sublist.cons₂ r ((ih _ h1).trans (List.filter_sublist _))


lemma keepFirstBy_sublist {α κ : Type} (key : α → κ) [DecidableEq κ] (l : List α) :
    (keepFirstBy key l).Sublist l :=
  keepFirstBy_sublist_of_len key l.length l le_rfl


lemma dedupLoop_subset {κ : Type} (key : List ℕ → κ) [DecidableEq κ]
    (l : List (List ℕ)) :
    ∀ seen : List κ, ∀ p ∈ dedupLoop key l seen, p ∈ l := by
  induction l with
  | nil => intro seen p hp; simp [dedupLoop] at hp
  | cons r rs ih =>
    intro seen p hp
    rw [dedupLoop] at hp
    by_cases h : key r ∈ seen
    · rw [if_pos h] at hp
      exact List.mem_cons_of_mem r (ih seen p hp)
    · rw [if_neg h] at hp
      rcases List.mem_cons.mp hp with h2 | hp2
      · exact List.mem_cons.mpr (Or.inl h2)
      · exact List.mem_cons_of_mem r (ih _ p hp2)


lemma simplePathsAux_sound (adj : ℕ → List ℕ) (t : ℕ) :
    ∀ (fuel u : ℕ) (vis : List ℕ), u ∉ vis →
      ∀ p ∈ simplePathsAux adj t fuel u vis,
        p.head? = some u ∧ p.Nodup ∧ ∀ x ∈ p, x ∉ vis := by
  intro fuel
  induction fuel with
  | zero =>
    intro u vis hu p hp
    rw [simplePathsAux] at hp
    by_cases h : u = t
    · rw [if_pos h] at hp
      simp only [List.mem_singleton] at hp
      subst hp
      simp [hu]
    · rw [if_neg h] at hp
      simp at hp
  | succ fuel ih =>
    intro u vis hu p hp
    rw [simplePathsAux] at hp
    by_cases h : u = t
    · rw [if_pos h] at hp
      simp only [List.mem_singleton] at hp
      subst hp
      simp [hu]
    · rw [if_neg h, List.mem_flatMap] at hp
      obtain ⟨w, hw, hpw⟩ := hp
      rw [List.mem_map] at hpw
      obtain ⟨p2, hp2, rfl⟩ := hpw
      have hwvis : w ∉ u :: vis := by
        have hmem := List.of_mem_filter hw
        simpa using hmem
      obtain ⟨hhead, hnodup, hdisj⟩ := ih w (u :: vis) hwvis p2 hp2
      refine ⟨rfl, ?_, ?_⟩
      · rw [List.nodup_cons]
        exact ⟨fun hmem => (hdisj u hmem) (List.mem_cons_self u vis), hnodup⟩
      · intro x hx
        rcases List.mem_cons.mp hx with rfl | hx2
        · exact hu
        · exact fun hxvis => (hdisj x hx2) (List.mem_cons_of_mem u hxvis)


lemma all_simple_paths_sound (g : Graph) (s t : ℕ) :
    ∀ p ∈ all_simple_paths g s t, p.Nodup ∧ p.head? = some s := by
  intro p hp
  obtain ⟨hhead, hnodup, _⟩ :=
    simplePathsAux_sound (graphAdj g) t g.nodeIds.length s [] (by simp) p hp
  exact ⟨hnodup, hhead⟩


/-- C1: Mode A keeps exactly the first route of each node-sequence class and
Mode B keeps exactly the first route of each node-set class (a route is
dropped iff an already kept route has the same key), and both outputs are
sublists of the discovery stream, hence in first-seen order. -/
theorem dedup_mode_policies (g : Graph) (s t : ℕ) :
    compute_routes_start_radius g s
        = keepFirstBy (fun r => r) (rawRoutesFromStart g s) ∧
    compute_routes_start_end_radius g s t
        = keepFirstBy (fun r => r.toFinset) (all_simple_paths g s t) ∧
    (compute_routes_start_radius g s).Sublist (rawRoutesFromStart g s) ∧
    (compute_routes_start_end_radius g s t).Sublist (all_simple_paths g s t) := by
  have h1 : compute_routes_start_radius g s
      = keepFirstBy (fun r => r) (rawRoutesFromStart g s) := by
    rw [compute_routes_start_radius, dedupLoop_eq_keepFirstBy]
    congr 1
    simp
  have h2 : compute_routes_start_end_radius g s t
      = keepFirstBy (fun r => r.toFinset) (all_simple_paths g s t) := by
    rw [compute_routes_start_end_radius, dedupLoop_eq_keepFirstBy]
    congr 1
    simp
  exact ⟨h1, h2, h1 ▸ keepFirstBy_sublist _ _, h2 ▸ keepFirstBy_sublist _ _⟩


/-- C5: every route produced by either enumeration mode is a simple path (no
repeated node identifier) whose first element is the start node. -/
theorem enumerator_paths_simple (g : Graph) (s t : ℕ) (_hs : s ∈ g.nodeIds) :
    (∀ p ∈ compute_routes_start_radius g s, p.Nodup ∧ p.head? = some s) ∧
    (∀ p ∈ compute_routes_start_end_radius g s t, p.Nodup ∧ p.head? = some s) := by
  constructor
  · intro p hp
    have hraw := dedupLoop_subset (fun r => r) _ [] p hp
    rw [rawRoutesFromStart, List.mem_flatMap] at hraw
    obtain ⟨tn, _, hpt⟩ := hraw
    exact all_simple_paths_sound g s tn p hpt
  · intro p hp
    exact all_simple_paths_sound g s t p
      (dedupLoop_subset (fun r => r.toFinset) _ [] p hp)


/-- Witness for C5 on the concrete graph gEnum with start node 1. -/
theorem enumerator_paths_simple_witness :
    (1 : ℕ) ∈ gEnum.nodeIds ∧
    ((∀ p ∈ compute_routes_start_radius gEnum 1, p.Nodup ∧ p.head? = some 1) ∧
     (∀ p ∈ compute_routes_start_end_radius gEnum 1 2, p.Nodup ∧ p.head? = some 1)) :=
  ⟨by decide, enumerator_paths_simple gEnum 1 2 (by decide)⟩


lemma segLen_first_record (geo : ℚ × ℚ → ℚ × ℚ → ℚ) (g1 g2 : Graph)
    (hc : g1.coord = g2.coord)
    (he : ∀ u v, (g1.edges u v).head? = (g2.edges u v).head?) (u v : ℕ) :
    segLen geo g1 u v = segLen geo g2 u v := by
  rw [segLen, segLen, he u v, hc]


lemma edgeTag_first_record (g1 g2 : Graph)
    (he : ∀ u v, (g1.edges u v).head? = (g2.edges u v).head?) (u v : ℕ) :
    edgeTag g1 u v = edgeTag g2 u v := by
  rw [edgeTag, edgeTag, he u v]


lemma segPoints_first_record (g1 g2 : Graph) (hc : g1.coord = g2.coord)
    (he : ∀ u v, (g1.edges u v).head? = (g2.edges u v).head?) (u v : ℕ) :
    segPoints g1 u v = segPoints g2 u v := by
  rw [segPoints, segPoints, he u v, hc]


lemma routeCoords_first_record (g1 g2 : Graph) (hc : g1.coord = g2.coord)
    (he : ∀ u v, (g1.edges u v).head? = (g2.edges u v).head?) (route : List ℕ) :
    routeCoords g1 route = routeCoords g2 route := by
  have hsp : segPoints g1 = segPoints g2 := by
    funext u v
    exact segPoints_first_record g1 g2 hc he u v
  rw [routeCoords, routeCoords, hsp]


lemma polylinesFrom_first_record (g1 g2 : Graph) (hc : g1.coord = g2.coord)
    (he : ∀ u v, (g1.edges u v).head? = (g2.edges u v).head?)
    (routes : List (List ℕ)) :
    ∀ idx : ℕ, polylinesFrom g1 idx routes = polylinesFrom g2 idx routes := by
  induction routes with
  | nil => intro idx; rfl
  | cons r rs ih =>
    intro idx
    rw [polylinesFrom, polylinesFrom, routeCoords_first_record g1 g2 hc he r, ih (idx + 1)]


/-- C10: every per-route output that reads edge attributes — distance,
road-type histogram, polylines — is unchanged when the parallel edge records
after the first are replaced arbitrarily: two graphs with the same
coordinates whose edge lists agree on their first record produce identical
outputs. -/
theorem first_parallel_edge_record_only (geo : ℚ × ℚ → ℚ × ℚ → ℚ) (g1 g2 : Graph)
    (hc : g1.coord = g2.coord)
    (he : ∀ u v, (g1.edges u v).head? = (g2.edges u v).head?) :
    (∀ route, compute_route_distance geo g1 route = compute_route_distance geo g2 route) ∧
    (∀ route, log_road_types g1 route = log_road_types g2 route) ∧
    (∀ routes, get_route_polylines (some g1) routes = get_route_polylines (some g2) routes) := by
  have hseg : segLen geo g1 = segLen geo g2 := by
    funext u v
    exact segLen_first_record geo g1 g2 hc he u v
  have htag : edgeTag g1 = edgeTag g2 := by
    funext u v
    exact edgeTag_first_record g1 g2 he u v
  refine ⟨fun route => ?_, fun route => ?_, fun routes => ?_⟩
  · rw [compute_route_distance, compute_route_distance, hseg]
  · rw [log_road_types, log_road_types, htag]
  · exact polylinesFrom_first_record g1 g2 hc he routes 0


/-- Witness for C10: dropping the second parallel record of gPar1 changes
no output of the three attribute readers. -/
theorem first_parallel_edge_record_only_witness :
    (gPar1.coord = gPar2.coord ∧
      ∀ u v, (gPar1.edges u v).head? = (gPar2.edges u v).head?) ∧
    compute_route_distance (fun _ _ => 0) gPar1 [0, 1]
        = compute_route_distance (fun _ _ => 0) gPar2 [0, 1] ∧
    log_road_types gPar1 [0, 1] = log_road_types gPar2 [0, 1] ∧
    get_route_polylines (some gPar1) [[0, 1]] = get_route_polylines (some gPar2) [[0, 1]] := by
  have hc : gPar1.coord = gPar2.coord := rfl
  have he : ∀ u v, (gPar1.edges u v).head? = (gPar2.edges u v).head? := by
    intro u v
    by_cases h : u = 0 ∧ v = 1 <;> simp [gPar1, gPar2, h]
  obtain ⟨h1, h2, h3⟩ := first_parallel_edge_record_only (fun _ _ => 0) gPar1 gPar2 hc he
  exact ⟨⟨hc, he⟩, h1 [0, 1], h2 [0, 1], h3 [[0, 1]]⟩


lemma atan2_neg_one_zero : atan2 (-1) 0 = -(Real.pi / 2) := by
  have h : (⟨0, -1⟩ : ℂ) = -Complex.I := by
    apply Complex.ext <;> simp
  rw [atan2, h, Complex.arg_neg_I]


lemma atan2_one_zero : atan2 1 0 = Real.pi / 2 := by
  have h : (⟨0, 1⟩ : ℂ) = Complex.I := rfl
  rw [atan2, h, Complex.arg_I]


lemma atan2_zero_one : atan2 0 1 = 0 := by
  have h : (⟨1, 0⟩ : ℂ) = 1 := rfl
  rw [atan2, h, Complex.arg_one]


lemma pymod_540 : pymod 540 360 = 180 := by
  rw [pymod]
  have h : ((540 : ℝ) / 360) = 3 / 2 := by norm_num
  have h2 : ⌊(3 / 2 : ℝ)⌋ = 1 := by
    rw [Int.floor_eq_iff] <;> norm_num
  rw [h, h2]
  norm_num


lemma pymod_450 : pymod 450 360 = 90 := by
  rw [pymod]
  have h : ((450 : ℝ) / 360) = 5 / 4 := by norm_num
  have h2 : ⌊(5 / 4 : ℝ)⌋ = 1 := by
    rw [Int.floor_eq_iff] <;> norm_num
  rw [h, h2]
  norm_num


lemma pi_mul_deg : Real.pi * (180 / Real.pi) = 180 := by
  rw [mul_comm, div_mul_cancel₀ _ Real.pi_ne_zero]


lemma angle_between_colinear : angle_between (0, 0) (0, 1) (0, 2) = 180 := by
  simp only [angle_between]
  norm_num
  rw [atan2_neg_one_zero, atan2_one_zero]
  have hang : (Real.pi / 2 - -(Real.pi / 2)) * (180 / Real.pi) = 180 := by
    rw [show Real.pi / 2 - -(Real.pi / 2) = Real.pi by ring, pi_mul_deg]
  rw [hang]
  rw [show (180 : ℝ) + 360 = 540 by norm_num, pymod_540]
  rw [if_neg (by norm_num)]


lemma angle_between_bend : angle_between (0, 0) (0, 1) (1, 1) = 90 := by
  simp only [angle_between]
  norm_num
  rw [atan2_neg_one_zero, atan2_zero_one]
  have hang : (0 - -(Real.pi / 2)) * (180 / Real.pi) = 90 := by
    rw [show (0 : ℝ) - -(Real.pi / 2) = Real.pi / 2 by ring]
    rw [div_mul_eq_mul_div, pi_mul_deg]
    norm_num
  rw [hang]
  rw [show (90 : ℝ) + 360 = 450 by norm_num, pymod_450]
  rw [if_neg (by norm_num)]


/-- C2 is refuted by the code: on three exactly colinear nodes with the
middle node exactly between the outer two, the computed angle is the angle
at the vertex between the vectors toward the previous and toward the next
node, which is 180 degrees, exceeds the 30-degree threshold, and is counted
as a turn — the turn count is 1, not the 0 the claim states. On an exact
90-degree bend the angle is 90 and the count is 1, as the claim states. -/
theorem turn_count_colinear_counts_one :
    log_turn_stats gColin [0, 1, 2] = 1 ∧ log_turn_stats gBend [0, 1, 2] = 1 := by
  constructor
  · rw [log_turn_stats]
    rw [show tripleList [0, 1, 2] = [(0, 1, 2)] from rfl]
    have e0 : toR (gColin.coord 0) = ((0 : ℝ), (0 : ℝ)) := by
      simp [gColin, toR]
    have e1 : toR (gColin.coord 1) = ((0 : ℝ), (1 : ℝ)) := by
      simp [gColin, toR]
    have e2 : toR (gColin.coord 2) = ((0 : ℝ), (2 : ℝ)) := by
      simp [gColin, toR]
    simp only [List.map_cons, List.map_nil, e0, e1, e2, angle_between_colinear]
    rw [if_pos (by norm_num)]
    simp
  · rw [log_turn_stats]
    rw [show tripleList [0, 1, 2] = [(0, 1, 2)] from rfl]
    have e0 : toR (gBend.coord 0) = ((0 : ℝ), (0 : ℝ)) := by
      simp [gBend, toR]
    have e1 : toR (gBend.coord 1) = ((0 : ℝ), (1 : ℝ)) := by
      simp [gBend, toR]
    have e2 : toR (gBend.coord 2) = ((1 : ℝ), (1 : ℝ)) := by
      simp [gBend, toR]
    simp only [List.map_cons, List.map_nil, e0, e1, e2, angle_between_bend]
    rw [if_pos (by norm_num)]
    simp


lemma foldl_distance (f : ℕ × ℕ → ℚ) :
    ∀ (l : List (ℕ × ℕ)) (a : ℚ) (s : List ℚ),
      l.foldl (fun acc uv => (acc.1 + f uv, acc.2 ++ [f uv])) (a, s)
        = (a + (l.map f).sum, s ++ l.map f) := by
  intro l
  induction l with
  | nil => intro a s; simp
  | cons x xs ih =>
    intro a s
    simp only [List.foldl_cons, ih, List.map_cons, List.sum_cons, Prod.mk.injEq]
    exact ⟨by ring, by simp⟩


lemma foldl_tag_filterMap (g : Graph) (l : List (ℕ × ℕ)) :
    ∀ acc : List (String × ℕ),
      l.foldl
        (fun acc uv =>
          match edgeTag g uv.1 uv.2 with
          | none => acc
          | some tag => bumpCount acc tag)
        acc
        = (l.filterMap fun uv => edgeTag g uv.1 uv.2).foldl bumpCount acc := by
  induction l with
  | nil => intro acc; simp
  | cons x xs ih =>
    intro acc
    rcases h : edgeTag g x.1 x.2 with _ | tag <;>
      simp [List.filterMap_cons, h, ih]


lemma countOf_bumpCount (acc : List (String × ℕ)) (tag t : String) :
    countOf (bumpCount acc tag) t = countOf acc t + (if tag = t then 1 else 0) := by
  induction acc with
  | nil =>
    by_cases h : tag = t <;> simp [bumpCount, countOf, h]
  | cons kn rest ih =>
    obtain ⟨k, n⟩ := kn
    by_cases hk : k = tag
    · subst hk
      by_cases ht : k = t <;> simp [bumpCount, countOf, ht]
    · by_cases ht : k = t
      · have htag : ¬ tag = t := fun h => hk (ht.trans h.symm)
        have htk : ¬ t = tag := fun h => hk (ht.trans h)
        simp [bumpCount, countOf, hk, ht, htag, htk]
      · simp [bumpCount, countOf, hk, ht, ih]


lemma countOf_foldl_bump (tags : List String) :
    ∀ acc : List (String × ℕ) , ∀ t : String,
      countOf (tags.foldl bumpCount acc) t = countOf acc t + tags.count t := by
  induction tags with
  | nil => intro acc t; simp
  | cons tag tags ih =>
    intro acc t
    by_cases h : tag = t <;>
      simp [List.foldl_cons, ih, countOf_bumpCount, h, List.count_cons, add_comm,
        add_assoc, add_left_comm]


/-- C6: for every route the computed total distance is the sum over
consecutive node pairs of the per-segment value, the per-segment value is the
length attribute of the edge when present and the geodesic distance between
the two node coordinates when absent (decided independently per segment), and
a 3-node path whose two edges have lengths 100 and 150 totals 250. -/
theorem route_distance_sum_with_fallback :
    (∀ (geo : ℚ × ℚ → ℚ × ℚ → ℚ) (g : Graph) (route : List ℕ),
        compute_route_distance geo g route
          = (((routePairs route).map fun uv => segLen geo g uv.1 uv.2).sum,
             (routePairs route).map fun uv => segLen geo g uv.1 uv.2)) ∧
    (∀ (geo : ℚ × ℚ → ℚ × ℚ → ℚ) (g : Graph) (u v : ℕ),
        segLen geo g u v
          = ((g.edges u v).head?.bind EdgeRec.length).getD (geo (g.coord u) (g.coord v))) ∧
    (compute_route_distance (fun _ _ => 0)
        { nodeIds := [10, 11, 12]
          coord := fun _ => (0, 0)
          edges := fun u v =>
            if u = 10 ∧ v = 11 then [⟨some 100, none, none⟩]
            else if u = 11 ∧ v = 12 then [⟨some 150, none, none⟩]
            else [] }
        [10, 11, 12]).1 = 250 := by
  refine ⟨fun geo g route => ?_, fun geo g u v => ?_, ?_⟩
  · rw [compute_route_distance, foldl_distance]
    simp
  · rcases h : (g.edges u v).head? with _ | d
    · simp [segLen, h]
    · rcases hl : d.length with _ | l <;> simp [segLen, h, hl]
  · rw [compute_route_distance, foldl_distance]
    norm_num [routePairs, segLen]


/-- C3: for every route and tag, the histogram counter of that tag equals the
number of consecutive node pairs that carry an edge record and whose
normalized road-type tag (the highway attribute of the first record, the
string undefined when the attribute is absent, the first element when it is a
list) equals the tag; pairs with no edge record are dropped by the filterMap
and hence contribute to no counter at all. -/
theorem road_type_histogram_counts (g : Graph) (route : List ℕ) (tag : String) :
    countOf (log_road_types g route) tag
      = ((routePairs route).filterMap fun uv => edgeTag g uv.1 uv.2).count tag := by
  rw [log_road_types, foldl_tag_filterMap, countOf_foldl_bump]
  simp [countOf]


/-- C8: the waypoint filter returns a sublist of the route set (order
preserved), keeps exactly the routes containing every resolved waypoint node,
and is the identity on the empty waypoint list. -/
theorem waypoint_filter_membership (nearest : ℚ × ℚ → ℕ) (routes : List (List ℕ))
    (middlePoints : List (ℚ × ℚ)) :
    (filter_routes_by_point nearest routes middlePoints).Sublist routes ∧
    (∀ r, r ∈ filter_routes_by_point nearest routes middlePoints ↔
        r ∈ routes ∧ ∀ p ∈ middlePoints, nearest p ∈ r) ∧
    filter_routes_by_point nearest routes [] = routes := by
  refine ⟨List.filter_sublist _, fun r => ?_, ?_⟩
  · rw [filter_routes_by_point]
    simp only [List.mem_filter, List.all_eq_true, List.mem_map, decide_eq_true_eq]
    constructor
    · rintro ⟨hr, hall⟩
      exact ⟨hr, fun p hp => hall (nearest p) ⟨p, hp, rfl⟩⟩
    · rintro ⟨hr, hall⟩
      refine ⟨hr, ?_⟩
      rintro tn ⟨p, hp, rfl⟩
      exact hall p hp
  · simp [filter_routes_by_point]


/-- C9: every emitted progress snapshot carries the completed count, the
total count, and an estimate equal to elapsed / completed * (total -
completed), which is zero whenever the completed count is zero. -/
theorem progress_eta_formula (completed total : ℕ) (elapsed : ℚ) :
    (update_progress completed total elapsed).timeRunning = completed ∧
    (update_progress completed total elapsed).timeDuration = total ∧
    (0 < completed →
      (update_progress completed total elapsed).timeEstimate
        = elapsed / completed * ((total : ℚ) - (completed : ℚ))) ∧
    (completed = 0 → (update_progress completed total elapsed).timeEstimate = 0) := by
  refine ⟨rfl, rfl, fun h => ?_, fun h => ?_⟩
  · simp [update_progress, h]
  · subst h; simp [update_progress]


/-- Witness for C9 at completed = 2, total = 5, elapsed = 6 (estimate 9) and
at completed = 0 (estimate 0). -/
theorem progress_eta_formula_witness :
    (update_progress 2 5 6).timeEstimate = 6 / 2 * ((5 : ℚ) - (2 : ℚ)) ∧
    (update_progress 0 5 6).timeEstimate = 0 :=
  ⟨(progress_eta_formula 2 5 6).2.2.1 (by decide),
   (progress_eta_formula 0 5 6).2.2.2 rfl⟩


end RoutePlanner
